import Mathlib

/-!
Verification of the ideabase ingestion-and-enrichment pipeline.

The definitions below are a shallow embedding of the Python backend:

* `app/services/ai/analyzer.py` — the enrichment generator
  (`ProjectAnalyzer.analyze_project`, `_parse_llm_response`,
  `_extract_xml`, `_get_default_field_value`, `_get_default_analysis`,
  `_validate_analysis_result`);
* `app/services/analysis_service.py` — `create_or_update_insight` and
  `check_if_insights_needed`;
* `app/tasks/scrape_trending.py` — `process_project` and
  `_scrape_github_trending_async`;
* `app/api/v1/endpoints/projects.py` — the write effect of
  `get_project_insights_by_name`;
* `app/tasks/analyze_projects.py` — the write effect of
  `analyze_single_project`;
* `alembic/versions/init_schema.py` — the unique index on
  `(project_id, language)` and the foreign-key constraint of
  `project_insights`, embedded as the failure condition of row insertion.

The persisted store is modelled as a list of rows.  Timestamp columns are
not modelled (they influence no verified property).  Fresh primary keys
are modelled as `1 + max existing id`.  A concurrent interleaving is
modelled by interference functions applied to the store between the
transactions of `create_or_update_insight`, and by Boolean flags for the
places where the Python code catches a database exception.
-/

/-- Result dictionary produced by `ProjectAnalyzer`: the five enrichment
text fields plus the `analysis_status` and `language` markers. -/
structure AnalysisResult where
  business_value : String
  market_opportunity : String
  startup_ideas : String
  target_audience : String
  competition_analysis : String
  analysis_status : String
  language : String
deriving DecidableEq, Repr

/-- The five section names extracted by `_parse_llm_response`. -/
def analysisSections : List String :=
  ["business_value", "market_opportunity", "startup_ideas",
   "target_audience", "competition_analysis"]

/-- `ProjectAnalyzer._get_default_field_value`: language-appropriate
placeholder for one section. -/
def get_default_field_value (output_language field : String) : String :=
  if output_language = "zh" then
    match field with
    | "business_value" => "无法确定该项目的商业价值。"
    | "market_opportunity" => "市场机会需要进一步评估。"
    | "startup_ideas" => "暂时没有基于该项目的创业想法。"
    | "target_audience" => "目标用户需要进一步调研。"
    | "competition_analysis" => "竞争情况需要深入分析。"
    | _ => "信息不足"
  else
    match field with
    | "business_value" => "Unable to determine the business value of this project."
    | "market_opportunity" => "Market opportunities need further evaluation."
    | "startup_ideas" => "No startup ideas based on this project for now."
    | "target_audience" => "Target users need further research."
    | "competition_analysis" => "Competitive situation needs in-depth analysis."
    | _ => "Insufficient information"

/-- `ProjectAnalyzer._get_default_analysis`: the failure-fallback payload,
marked `analysis_status = "failed"`. -/
def get_default_analysis (output_language : String) : AnalysisResult :=
  if output_language = "zh" then
    { business_value := "无法分析该项目的商业价值。"
      market_opportunity := "无法评估市场机会。"
      startup_ideas := "无法生成创业想法。"
      target_audience := "无法确定目标用户。"
      competition_analysis := "无法分析竞争情况。"
      analysis_status := "failed"
      language := "zh" }
  else
    { business_value := "Unable to analyze the business value of this project."
      market_opportunity := "Unable to evaluate market opportunities."
      startup_ideas := "Unable to generate startup ideas."
      target_audience := "Unable to identify target users."
      competition_analysis := "Unable to analyze competitive situation."
      analysis_status := "failed"
      language := "en" }

/-- Python whitespace as stripped by `str.strip()`: space, tab, newline,
carriage return, vertical tab, form feed. -/
def isPyWhitespace (c : Char) : Bool :=
  c.toNat = 32 || c.toNat = 9 || c.toNat = 10 || c.toNat = 13 ||
    c.toNat = 11 || c.toNat = 12

/-- `str.strip()` on a character list. -/
def trimChars (l : List Char) : List Char :=
  ((l.dropWhile isPyWhitespace).reverse.dropWhile isPyWhitespace).reverse

/-- Split a character list at the first occurrence of `sep`: returns the
part before the occurrence and the part after it, or `none` when `sep`
does not occur. -/
def breakOn (sep : List Char) : List Char → Option (List Char × List Char)
  | [] => none
  | c :: cs =>
    if sep.isPrefixOf (c :: cs) then some ([], (c :: cs).drop sep.length)
    else
      match breakOn sep cs with
      | some (pre, post) => some (c :: pre, post)
      | none => none

/-- `ProjectAnalyzer._extract_xml`: content of the first `<tag>` that has a
closing `</tag>` after it, trimmed; empty string when the tag is absent.
The lazy regex `<tag>([\s\S]*?)</tag>` matches at the first opening tag
followed by a closing tag and stops at the first closing tag after it. -/
def extract_xml (text tag_name : String) : String :=
  let openTag := ("<" ++ tag_name ++ ">").data
  let closeTag := ("</" ++ tag_name ++ ">").data
  match breakOn openTag text.data with
  | none => ""
  | some (_, rest) =>
    match breakOn closeTag rest with
    | none => ""
    | some (content, _) => ⟨trimChars content⟩

/-- The code-fence step of `_parse_llm_response`: strip the response, and
when a pair of triple-backtick fences is present replace the text by the
content between the first two fences (with an optional leading `xml`
marker removed and surrounding whitespace stripped, as the fence regex and
the subsequent `.strip()` do). -/
def strip_code_fence (response_text : String) : String :=
  let fence := ['\x60', '\x60', '\x60']
  let cleaned := trimChars response_text.data
  match breakOn fence cleaned with
  | none => ⟨cleaned⟩
  | some (_, rest) =>
    match breakOn fence rest with
    | none => ⟨cleaned⟩
    | some (content, _) =>
      let c := if ("xml".data).isPrefixOf content then content.drop 3 else content
      ⟨trimChars c⟩

/-- `ProjectAnalyzer._validate_analysis_result`: replace every empty
enrichment field by its default placeholder. -/
def validate_analysis_result (output_language : String) (r : AnalysisResult) :
    AnalysisResult :=
  { r with
    business_value :=
      if r.business_value = "" then
        get_default_field_value output_language "business_value"
      else r.business_value
    market_opportunity :=
      if r.market_opportunity = "" then
        get_default_field_value output_language "market_opportunity"
      else r.market_opportunity
    startup_ideas :=
      if r.startup_ideas = "" then
        get_default_field_value output_language "startup_ideas"
      else r.startup_ideas
    target_audience :=
      if r.target_audience = "" then
        get_default_field_value output_language "target_audience"
      else r.target_audience
    competition_analysis :=
      if r.competition_analysis = "" then
        get_default_field_value output_language "competition_analysis"
      else r.competition_analysis }

/-- Section extraction with defaulting, as in the loop of
`_parse_llm_response`: use the extracted content when non-empty, the
language default otherwise. -/
def parse_section (output_language cleaned sect : String) : String :=
  let content := extract_xml cleaned sect
  if content = "" then get_default_field_value output_language sect
  else content

/-- `ProjectAnalyzer._parse_llm_response`: strip fences, extract the five
sections with defaulting, then validate.  The `analysis_status` and
`language` keys are not part of the parsed dictionary; they are set by
`analyze_project` afterwards and are left empty here. -/
def parse_llm_response (output_language response_text : String) : AnalysisResult :=
  let cleaned := strip_code_fence response_text
  validate_analysis_result output_language
    { business_value := parse_section output_language cleaned "business_value"
      market_opportunity := parse_section output_language cleaned "market_opportunity"
      startup_ideas := parse_section output_language cleaned "startup_ideas"
      target_audience := parse_section output_language cleaned "target_audience"
      competition_analysis := parse_section output_language cleaned "competition_analysis"
      analysis_status := ""
      language := "" }

/-- `ProjectAnalyzer.analyze_project`.  The model-call boundary is the
`response` argument: `some text` is a completed chat-completion response,
`none` is any exception raised inside the `try` block (model error,
transport error).  On success the parsed result is marked
`analysis_status = "success"` with the analyzer's output language; on
failure the default failure payload is returned. -/
def analyze_project (output_language : String) (response : Option String) :
    AnalysisResult :=
  match response with
  | none => get_default_analysis output_language
  | some text =>
    { parse_llm_response output_language text with
      analysis_status := "success"
      language := output_language }

/-- Dictionary access `result[section]` for the five enrichment fields. -/
def sectionValue (r : AnalysisResult) : String → String
  | "business_value" => r.business_value
  | "market_opportunity" => r.market_opportunity
  | "startup_ideas" => r.startup_ideas
  | "target_audience" => r.target_audience
  | "competition_analysis" => r.competition_analysis
  | _ => ""

/-- A row of the `projects` table (timestamp columns other than
`trending_date` are not modelled). -/
structure ProjectRow where
  id : Nat
  name : String
  owner : String
  full_name : String
  description : Option String
  repository_url : String
  homepage_url : Option String
  language : Option String
  stars_count : Nat
  forks_count : Nat
  trending_date : Option Nat
deriving DecidableEq, Repr

/-- A row of the `project_insights` table (the surrogate `id` and the
timestamp columns are not modelled; no verified property depends on
them). -/
structure InsightRow where
  project_id : Nat
  language : String
  business_value : String
  market_opportunity : String
  startup_ideas : String
  target_audience : String
  competition_analysis : String
  analysis_version : String
  analysis_status : String
deriving DecidableEq, Repr

/-- The persisted `project_insights` table. -/
abbrev InsightStore := List InsightRow

/-- Two insight rows agree on the unique key `(project_id, language)`. -/
def sameKey (a b : InsightRow) : Bool :=
  a.project_id == b.project_id && a.language == b.language

/-- An insight row has key `(p, l)`. -/
def hasKey (r : InsightRow) (p : Nat) (l : String) : Bool :=
  r.project_id == p && r.language == l

/-- `db.query(ProjectInsight).filter(project_id == p, language == l).first()`. -/
def queryInsight (db : InsightStore) (p : Nat) (l : String) : Option InsightRow :=
  db.find? (fun r => hasKey r p l)

/-- `db.query(ProjectInsight).filter(project_id == p, analysis_status ==
"success", language == l).first()`. -/
def queryInsightSuccess (db : InsightStore) (p : Nat) (l : String) :
    Option InsightRow :=
  db.find? (fun r => hasKey r p l && r.analysis_status == "success")

/-- Committing an insert of an insight row.  The commit fails with
`IntegrityError` when the unique index
`ix_project_insights_project_id_language` already holds a row with the
same `(project_id, language)` key, or when the foreign-key constraint on
`project_id` is violated (both are declared in `init_schema.py`). -/
def insertInsight (pdb : List ProjectRow) (db : InsightStore) (row : InsightRow) :
    Except Unit InsightStore :=
  if db.any (fun r => sameKey r row) || !(pdb.any (fun pr => pr.id == row.project_id)) then
    .error ()
  else
    .ok (db ++ [row])

/-- Overwriting the enrichment fields, version and status of an existing
insight row with a freshly generated analysis result, as the update branch
of `create_or_update_insight` does (field by field, then
`analysis_version = analyzer.model_name` and `analysis_status =
analysis_result.get("analysis_status", "success")`). -/
def applyAnalysis (a : AnalysisResult) (version : String) (r : InsightRow) :
    InsightRow :=
  { r with
    business_value := a.business_value
    market_opportunity := a.market_opportunity
    startup_ideas := a.startup_ideas
    target_audience := a.target_audience
    competition_analysis := a.competition_analysis
    analysis_version := version
    analysis_status := a.analysis_status }

/-- Committing the update of the row at key `(p, l)` (the ORM object
obtained by the locked query; under the unique index there is at most one
such row). -/
def updateInsight (db : InsightStore) (p : Nat) (l : String)
    (a : AnalysisResult) (version : String) : InsightStore :=
  db.map (fun r => if hasKey r p l then applyAnalysis a version r else r)

/-- The new row built by the insert branches of
`create_or_update_insight`. -/
def mkInsightRow (p : Nat) (l : String) (a : AnalysisResult) (version : String) :
    InsightRow :=
  { project_id := p
    language := l
    business_value := a.business_value
    market_opportunity := a.market_opportunity
    startup_ideas := a.startup_ideas
    target_audience := a.target_audience
    competition_analysis := a.competition_analysis
    analysis_version := version
    analysis_status := a.analysis_status }

/-- Outcome of `ProjectAnalysisService.create_or_update_insight`: the
returned `(success, insight)` pair, the final state of the insight table,
and the number of `analyzer.analyze_project` invocations performed. -/
structure CreateOrUpdateResult where
  success : Bool
  insight : Option InsightRow
  db : InsightStore
  generatorCalls : Nat
deriving Repr

/-- `ProjectAnalysisService.create_or_update_insight`, with its race
behaviour made explicit.

The operation runs up to three transactions.  `db` is the table state the
first transaction observes.  `conc1` is the set of commits other sessions
perform between the first locked read and the first commit attempt;
`conc2` those before the retry transaction's locked re-read; `conc3` those
before the final plain query.  `retryFails` models a `SQLAlchemyError`
aborting the retry transaction; `finalFails` an exception in the final
query.  The analyzer is invoked exactly once, before the first commit
attempt, and `analysis` is its result; `version` is `analyzer.model_name`.

Control flow mirrors the Python: locked read; update-or-insert; on
`IntegrityError` roll back and retry (locked re-read, update if present,
insert otherwise); on a retry failure fall back to a final read-only
lookup; report `(False, None)` only when that, too, yields nothing. -/
def create_or_update_insight (pdb : List ProjectRow) (db : InsightStore)
    (p : Nat) (l : String) (analysis : AnalysisResult) (version : String)
    (conc1 conc2 conc3 : InsightStore → InsightStore)
    (retryFails finalFails : Bool) : CreateOrUpdateResult :=
  let existing := queryInsight db p l
  let row := mkInsightRow p l analysis version
  let db1 := conc1 db
  match existing with
  | some _ =>
    let db2 := updateInsight db1 p l analysis version
    { success := true, insight := queryInsight db2 p l, db := db2, generatorCalls := 1 }
  | none =>
    match insertInsight pdb db1 row with
    | .ok db2 =>
      { success := true, insight := queryInsight db2 p l, db := db2, generatorCalls := 1 }
    | .error _ =>
      if retryFails then
        let db3 := conc3 (conc2 db1)
        if finalFails then
          { success := false, insight := none, db := db3, generatorCalls := 1 }
        else
          match queryInsight db3 p l with
          | some r =>
            { success := true, insight := some r, db := db3, generatorCalls := 1 }
          | none =>
            { success := false, insight := none, db := db3, generatorCalls := 1 }
      else
        let db2 := conc2 db1
        match queryInsight db2 p l with
        | some _ =>
          let db3 := updateInsight db2 p l analysis version
          { success := true, insight := queryInsight db3 p l, db := db3, generatorCalls := 1 }
        | none =>
          match insertInsight pdb db2 row with
          | .ok db3 =>
            { success := true, insight := queryInsight db3 p l, db := db3, generatorCalls := 1 }
          | .error _ =>
            let db3 := conc3 db2
            if finalFails then
              { success := false, insight := none, db := db3, generatorCalls := 1 }
            else
              match queryInsight db3 p l with
              | some r =>
                { success := true, insight := some r, db := db3, generatorCalls := 1 }
              | none =>
                { success := false, insight := none, db := db3, generatorCalls := 1 }

/-- `create_or_update_insight` as executed with no concurrent writer and
no infrastructure failure: the sequential behaviour seen by the pipeline
and the on-demand read path. -/
def create_or_update_insight_seq (pdb : List ProjectRow) (db : InsightStore)
    (p : Nat) (l : String) (analysis : AnalysisResult) (version : String) :
    CreateOrUpdateResult :=
  create_or_update_insight pdb db p l analysis version id id id false false

/-- `ProjectAnalysisService.check_if_insights_needed`, exception-free
path: one success-filtered query per language; a language needs analysis
exactly when that query returns no row. -/
def check_if_insights_needed (db : InsightStore) (p : Nat)
    (languages : List String) : List (String × Bool) :=
  languages.map (fun l => (l, (queryInsightSuccess db p l).isNone))

/-- `ProjectAnalysisService.check_if_insights_needed` including its
`except` branch: when the queries fail (`queryFails`), the partial
dictionary is discarded and every requested language is reported as
needing analysis. -/
def check_if_insights_needed_total (db : InsightStore) (p : Nat)
    (languages : List String) (queryFails : Bool) : List (String × Bool) :=
  if queryFails then languages.map (fun l => (l, true))
  else check_if_insights_needed db p languages

/-- A candidate project record as produced by the Source Fetcher
(`GitHubTrendingScraper`): `name`, `owner`, `full_name`, `repository_url`
are always present; the remaining keys are read with `.get` and are
modelled as `Option` (`none` = key absent). -/
structure Candidate where
  name : String
  owner : String
  full_name : String
  description : Option String
  repository_url : String
  homepage_url : Option String
  language : Option String
  stars_count : Option Nat
  forks_count : Option Nat
  trending_date : Option Nat
deriving DecidableEq, Repr

/-- `db.query(Project).filter(Project.full_name == fullName).first()`. -/
def findProject (pdb : List ProjectRow) (fullName : String) : Option ProjectRow :=
  pdb.find? (fun r => r.full_name == fullName)

/-- A fresh primary key for an inserted project: one more than the largest
id in use (the model of the database id sequence). -/
def newProjectId (pdb : List ProjectRow) : Nat :=
  1 + pdb.foldr (fun r m => max r.id m) 0

/-- The `Project` row built by the create branch of `process_project`. -/
def newProjectRow (pdb : List ProjectRow) (c : Candidate) : ProjectRow :=
  { id := newProjectId pdb
    name := c.name
    owner := c.owner
    full_name := c.full_name
    description := c.description
    repository_url := c.repository_url
    homepage_url := c.homepage_url
    language := c.language
    stars_count := c.stars_count.getD 0
    forks_count := c.forks_count.getD 0
    trending_date := c.trending_date }

/-- The update branch of `process_project`: only `stars_count`,
`forks_count` and `trending_date` are merged, each defaulting to the
stored value when the candidate key is absent. -/
def updateProjectRow (c : Candidate) (r : ProjectRow) : ProjectRow :=
  { r with
    stars_count := c.stars_count.getD r.stars_count
    forks_count := c.forks_count.getD r.forks_count
    trending_date :=
      match c.trending_date with
      | some t => some t
      | none => r.trending_date }

/-- Apply the update branch to the row returned by the locked
`full_name` lookup (the first matching row). -/
def updateProject : List ProjectRow → Candidate → List ProjectRow
  | [], _ => []
  | r :: rs, c =>
    if r.full_name == c.full_name then updateProjectRow c r :: rs
    else r :: updateProject rs c

/-- All `Project` columns other than the three merged by the update branch
(`stars_count`, `forks_count`, `trending_date`) coincide. -/
def projectIdentityUnchanged (r r2 : ProjectRow) : Prop :=
  r2.id = r.id ∧ r2.name = r.name ∧ r2.owner = r.owner ∧
    r2.full_name = r.full_name ∧ r2.description = r.description ∧
    r2.repository_url = r.repository_url ∧ r2.homepage_url = r.homepage_url ∧
    r2.language = r.language

/-- Outcome of `process_project`: the returned Boolean, the `isNew`
classification made inside it, the resulting stores, and the number of
generator invocations the call performed. -/
structure ProcessResult where
  ok : Bool
  isNew : Bool
  pdb : List ProjectRow
  idb : InsightStore
  generatorCalls : Nat
deriving Repr

/-- `app/tasks/scrape_trending.process_project`, sequential execution.

A locked lookup by `full_name` classifies the candidate.  A new identity
is inserted and needs analysis in both languages; a seen identity has its
counts and trending date merged and its needs decided by
`check_if_insights_needed` (whose exception branch is reachable via
`checkFails`).  The English analysis runs before the Chinese one;
`resEn`/`resZh` are the analyzer results those calls produce, and
`vEn`/`vZh` the corresponding `analyzer.model_name`. -/
def process_project (pdb : List ProjectRow) (idb : InsightStore)
    (c : Candidate) (resEn resZh : AnalysisResult) (vEn vZh : String)
    (checkFails : Bool) : ProcessResult :=
  match findProject pdb c.full_name with
  | none =>
    let pr := newProjectRow pdb c
    let pdb1 := pdb ++ [pr]
    let r1 := create_or_update_insight_seq pdb1 idb pr.id "en" resEn vEn
    let r2 := create_or_update_insight_seq pdb1 r1.db pr.id "zh" resZh vZh
    { ok := true, isNew := true, pdb := pdb1, idb := r2.db
      generatorCalls := r1.generatorCalls + r2.generatorCalls }
  | some pr =>
    let pdb1 := updateProject pdb c
    let needs := check_if_insights_needed_total idb pr.id ["en", "zh"] checkFails
    let needEn := (needs.lookup "en").getD false
    let needZh := (needs.lookup "zh").getD false
    let idb1 :=
      if needEn then (create_or_update_insight_seq pdb1 idb pr.id "en" resEn vEn).db
      else idb
    let g1 :=
      if needEn then
        (create_or_update_insight_seq pdb1 idb pr.id "en" resEn vEn).generatorCalls
      else 0
    let idb2 :=
      if needZh then (create_or_update_insight_seq pdb1 idb1 pr.id "zh" resZh vZh).db
      else idb1
    let g2 :=
      if needZh then
        (create_or_update_insight_seq pdb1 idb1 pr.id "zh" resZh vZh).generatorCalls
      else 0
    { ok := true, isNew := false, pdb := pdb1, idb := idb2
      generatorCalls := g1 + g2 }

/-- Store effect of `app/tasks/analyze_projects.analyze_single_project`:
skip when a success row already exists for `(p, lang)`, otherwise run
`create_or_update_insight`. -/
def analyze_single_project (pdb : List ProjectRow) (idb : InsightStore)
    (p : Nat) (lang : String) (res : AnalysisResult) (v : String) :
    InsightStore :=
  match queryInsightSuccess idb p lang with
  | some _ => idb
  | none => (create_or_update_insight_seq pdb idb p lang res v).db

/-- Store effect of the on-demand read path
`get_project_insights_by_name` (`projects.py`): 404 when the project is
unknown; return directly when the stored insight has status `success` (or
any status other than `failed`); invoke `create_or_update_insight` when
the insight is absent or has status `failed`. -/
def get_project_insights_by_name (pdb : List ProjectRow) (idb : InsightStore)
    (owner repo lang : String) (res : AnalysisResult) (v : String) :
    InsightStore :=
  match findProject pdb (owner ++ "/" ++ repo) with
  | none => idb
  | some pr =>
    match queryInsight idb pr.id lang with
    | none => (create_or_update_insight_seq pdb idb pr.id lang res v).db
    | some ins =>
      if ins.analysis_status == "success" then idb
      else if ins.analysis_status == "failed" then
        (create_or_update_insight_seq pdb idb pr.id lang res v).db
      else idb

/-- The externally triggered operations of this core that touch the
insight table, with the analyzer outcomes they would observe as data. -/
inductive CoreOp where
  | processProject (c : Candidate) (resEn resZh : AnalysisResult)
      (vEn vZh : String) (checkFails : Bool)
  | analyzeSingle (p : Nat) (lang : String) (res : AnalysisResult) (v : String)
  | onDemand (owner repo lang : String) (res : AnalysisResult) (v : String)
  | checkNeeded (p : Nat) (languages : List String) (queryFails : Bool)

/-- Effect of one core operation on the two stores. -/
def applyCoreOp (s : List ProjectRow × InsightStore) (op : CoreOp) :
    List ProjectRow × InsightStore :=
  match op with
  | .processProject c resEn resZh vEn vZh checkFails =>
    let r := process_project s.1 s.2 c resEn resZh vEn vZh checkFails
    (r.pdb, r.idb)
  | .analyzeSingle p lang res v => (s.1, analyze_single_project s.1 s.2 p lang res v)
  | .onDemand owner repo lang res v =>
    (s.1, get_project_insights_by_name s.1 s.2 owner repo lang res v)
  | .checkNeeded p languages queryFails =>
    let _ := check_if_insights_needed_total s.2 p languages queryFails
    s

/-- A sequential history of core operations. -/
def runCoreOps (ops : List CoreOp) (s : List ProjectRow × InsightStore) :
    List ProjectRow × InsightStore :=
  ops.foldl applyCoreOp s

/-- Per-language entry of `result_stats["languages"]`. -/
structure LangStat where
  scraped : Nat
  analyzed : Nat
deriving DecidableEq, Repr

/-- `result_stats` of `_scrape_github_trending_async`. -/
structure RunStats where
  total_scraped : Nat
  total_analyzed : Nat
  new_projects : Nat
  updated_projects : Nat
  failed_analysis : Nat
  languages : List (String × LangStat)
deriving DecidableEq, Repr

/-- The initial statistics object of a run. -/
def initRunStats : RunStats :=
  { total_scraped := 0, total_analyzed := 0, new_projects := 0
    updated_projects := 0, failed_analysis := 0, languages := [] }

/-- Dictionary assignment `stats["languages"][key] = v`. -/
def setLangStat (m : List (String × LangStat)) (k : String) (v : LangStat) :
    List (String × LangStat) :=
  if (m.lookup k).isSome then
    m.map (fun kv => if kv.1 == k then (k, v) else kv)
  else m ++ [(k, v)]

/-- Value returned by `_scrape_github_trending_async`: either the
statistics object, or — when an exception escapes the per-run `try` — an
error message together with the statistics accumulated so far. -/
structure RunResult where
  error : Option String
  stats : RunStats
  pdb : List ProjectRow
  idb : InsightStore
deriving Repr

/-- The per-candidate loop of `_scrape_github_trending_async` for one
language: each candidate goes through `process_project`; a `True` return
increments the language's `analyzed` counter and `total_analyzed`, a
`False` return increments `failed_analysis`. -/
def scrapeCandidates (gen : Candidate → String → AnalysisResult) (v : String)
    (langKey : String) :
    List Candidate → RunStats × List ProjectRow × InsightStore →
    RunStats × List ProjectRow × InsightStore
  | [], acc => acc
  | c :: cs, (stats, pdb, idb) =>
    let r := process_project pdb idb c (gen c "en") (gen c "zh") v v false
    let stats1 :=
      if r.ok then
        let cur := (stats.languages.lookup langKey).getD ⟨0, 0⟩
        { stats with
          total_analyzed := stats.total_analyzed + 1
          languages := setLangStat stats.languages langKey ⟨cur.scraped, cur.analyzed + 1⟩ }
      else { stats with failed_analysis := stats.failed_analysis + 1 }
    scrapeCandidates gen v langKey cs (stats1, r.pdb, r.idb)

/-- The per-language loop of `_scrape_github_trending_async`.  `fetch`
models `scraper.get_trending_projects`: `.ok` is a returned candidate list
(the scraper converts transport failures into `[]` itself), `.error` an
exception escaping it, which the surrounding `try` of the driver turns
into an error result carrying the statistics accumulated so far — the
remaining languages are not processed. -/
def scrapeLanguages (fetch : String → Except String (List Candidate))
    (gen : Candidate → String → AnalysisResult) (v : String) :
    List String → RunStats × List ProjectRow × InsightStore → RunResult
  | [], (stats, pdb, idb) => { error := none, stats := stats, pdb := pdb, idb := idb }
  | lang :: rest, (stats, pdb, idb) =>
    let langKey := if lang == "" then "all" else lang
    let stats0 := { stats with languages := setLangStat stats.languages langKey ⟨0, 0⟩ }
    match fetch lang with
    | .error e => { error := some e, stats := stats0, pdb := pdb, idb := idb }
    | .ok projects =>
      let stats1 :=
        { stats0 with
          total_scraped := stats0.total_scraped + projects.length
          languages := setLangStat stats0.languages langKey ⟨projects.length, 0⟩ }
      let (stats2, pdb2, idb2) :=
        scrapeCandidates gen v langKey projects (stats1, pdb, idb)
      scrapeLanguages fetch gen v rest (stats2, pdb2, idb2)

/-- `app/tasks/scrape_trending._scrape_github_trending_async`: one
pipeline run.  `languages_to_scrape = languages or [""]`, so both `None`
and an empty list fall back to a single unfiltered pass. -/
def scrape_github_trending_async (fetch : String → Except String (List Candidate))
    (gen : Candidate → String → AnalysisResult) (v : String)
    (languages : Option (List String)) (pdb : List ProjectRow)
    (idb : InsightStore) : RunResult :=
  let languages_to_scrape :=
    match languages with
    | none => [""]
    | some [] => [""]
    | some ls => ls
  scrapeLanguages fetch gen v languages_to_scrape (initRunStats, pdb, idb)

/-- Key-uniqueness of the insight table: the invariant enforced by the
unique index on `(project_id, language)`. -/
def uniqKeys (db : InsightStore) : Prop :=
  db.Pairwise (fun a b => sameKey a b = false)

/-- Number of stored insight rows with key `(p, l)`. -/
def countKey (db : InsightStore) (p : Nat) (l : String) : Nat :=
  (db.filter (fun r => hasKey r p l)).length

/-- A store transformation made of commits of this core: it can only
preserve key-uniqueness. -/
def PresUniq (f : InsightStore → InsightStore) : Prop :=
  ∀ db, uniqKeys db → uniqKeys (f db)

/-- Foreign-key invariant: every insight row references a stored
project. -/
def FKInv (pdb : List ProjectRow) (idb : InsightStore) : Prop :=
  ∀ r ∈ idb, pdb.any (fun pr => pr.id == r.project_id) = true

/-- A success-status insight row is stored at key `(q, m)`. -/
def SuccessAt (db : InsightStore) (q : Nat) (m : String) : Prop :=
  ∃ r ∈ db, hasKey r q m = true ∧ r.analysis_status = "success"

/-- The operation does not hit the fail-open `except` branch of
`check_if_insights_needed`. -/
def opNoCheckFail : CoreOp → Prop
  | .processProject _ _ _ _ _ checkFails => checkFails = false
  | _ => True

/-- One `create_or_update_insight` call of a concurrent history: its
target, its analyzer outcome, and the interference and failure
environment it runs under. -/
structure CallSpec where
  pdb : List ProjectRow
  p : Nat
  l : String
  analysis : AnalysisResult
  version : String
  conc1 : InsightStore → InsightStore
  conc2 : InsightStore → InsightStore
  conc3 : InsightStore → InsightStore
  retryFails : Bool
  finalFails : Bool

/-- Final insight-table state after a sequence of
`create_or_update_insight` calls, each seeing the state the previous one
left (plus its own interference). -/
def runCalls (db : InsightStore) (calls : List CallSpec) : InsightStore :=
  calls.foldl
    (fun s c =>
      (create_or_update_insight c.pdb s c.p c.l c.analysis c.version
        c.conc1 c.conc2 c.conc3 c.retryFails c.finalFails).db)
    db

/-- Looking up a key in an association list built by tabulating `f` over a
key list returns `f` of the key, for any key in the list. -/
theorem lookup_map_pair {β : Type} (f : String → β) :
    ∀ (l : List String) (x : String), x ∈ l →
      (l.map (fun y => (y, f y))).lookup x = some (f x) := by
  intro l
  induction l with
  | nil => intro x hx; cases hx
  | cons a as ih =>
    intro x hx
    by_cases h : x = a
    · subst h
      simp [List.lookup]
    · have hb : (x == a) = false := by simp [h]
      rcases List.mem_cons.mp hx with h1 | h1
      · exact absurd h1 h
      · simpa [List.lookup, hb] using ih x h1

/-- The language defaults of the analyzer are never empty strings. -/
theorem get_default_field_value_ne_empty (lang sect : String) :
    get_default_field_value lang sect ≠ "" := by
  unfold get_default_field_value
  split <;> split <;> decide

/-- Two rows sharing the key `(p, l)` are related by `sameKey`. -/
theorem hasKey_hasKey_sameKey {a b : InsightRow} {p : Nat} {l : String}
    (ha : hasKey a p l = true) (hb : hasKey b p l = true) : sameKey a b = true := by
  simp only [hasKey, Bool.and_eq_true, beq_iff_eq] at ha hb
  simp [sameKey, ha.1, ha.2, hb.1, hb.2]

/-- A key-unique store holds at most one row per key. -/
theorem countKey_le_one_of_uniq :
    ∀ {db : InsightStore}, uniqKeys db → ∀ (p : Nat) (l : String),
      countKey db p l ≤ 1 := by
  intro db hu
  induction db with
  | nil => intro p l; simp [countKey]
  | cons r rs ih =>
    intro p l
    cases hu with
    | cons hr hrs =>
      by_cases hk : hasKey r p l = true
      · have hz : countKey rs p l = 0 := by
          unfold countKey
          simp only [List.length_eq_zero, List.filter_eq_nil_iff]
          intro b hb hkb
          have hfalse := hr b hb
          rw [hasKey_hasKey_sameKey hk hkb] at hfalse
          cases hfalse
        unfold countKey at hz ⊢
        simp [List.filter_cons, hk, hz]
      · unfold countKey at ih ⊢
        simpa [List.filter_cons, hk] using ih hrs p l

/-- A committed insert preserves key-uniqueness (it is rejected whenever a
row with the same key is already stored). -/
theorem insertInsight_uniq {pdb : List ProjectRow} {db db' : InsightStore}
    {row : InsightRow} (h : insertInsight pdb db row = .ok db')
    (hu : uniqKeys db) : uniqKeys db' := by
  unfold insertInsight at h
  split at h
  · cases h
  · next hc =>
    cases h
    have hany : db.any (fun r => sameKey r row) = false := by
      cases h1 : db.any (fun r => sameKey r row) with
      | false => rfl
      | true => exact absurd (by simp [h1]) hc
    rw [List.any_eq_false] at hany
    unfold uniqKeys
    rw [List.pairwise_append]
    refine ⟨hu, List.pairwise_singleton _ _, ?_⟩
    intro a ha b hb
    rw [List.mem_singleton.mp hb]
    exact Bool.not_eq_true _ ▸ (hany a ha)

/-- A committed update preserves key-uniqueness (keys are untouched). -/
theorem updateInsight_uniq {db : InsightStore} {p : Nat} {l : String}
    {a : AnalysisResult} {v : String} (hu : uniqKeys db) :
    uniqKeys (updateInsight db p l a v) := by
  unfold updateInsight uniqKeys
  rw [List.pairwise_map]
  apply hu.imp
  intro x y hxy
  have kx : (if hasKey x p l then applyAnalysis a v x else x).project_id = x.project_id ∧
      (if hasKey x p l then applyAnalysis a v x else x).language = x.language := by
    by_cases h : hasKey x p l <;> simp [h, applyAnalysis]
  have ky : (if hasKey y p l then applyAnalysis a v y else y).project_id = y.project_id ∧
      (if hasKey y p l then applyAnalysis a v y else y).language = y.language := by
    by_cases h : hasKey y p l <;> simp [h, applyAnalysis]
  simpa [sameKey, kx.1, kx.2, ky.1, ky.2] using hxy

/-- The final table state of `create_or_update_insight`, branch by
branch. -/
theorem create_or_update_insight_db (pdb : List ProjectRow) (db : InsightStore)
    (p : Nat) (l : String) (a : AnalysisResult) (v : String)
    (c1 c2 c3 : InsightStore → InsightStore) (rf ff : Bool) :
    (create_or_update_insight pdb db p l a v c1 c2 c3 rf ff).db =
      match queryInsight db p l with
      | some _ => updateInsight (c1 db) p l a v
      | none =>
        match insertInsight pdb (c1 db) (mkInsightRow p l a v) with
        | .ok db2 => db2
        | .error _ =>
          if rf then c3 (c2 (c1 db))
          else
            match queryInsight (c2 (c1 db)) p l with
            | some _ => updateInsight (c2 (c1 db)) p l a v
            | none =>
              match insertInsight pdb (c2 (c1 db)) (mkInsightRow p l a v) with
              | .ok db3 => db3
              | .error _ => c3 (c2 (c1 db)) := by
  simp only [create_or_update_insight]
  cases queryInsight db p l with
  | some w => rfl
  | none =>
    cases insertInsight pdb (c1 db) (mkInsightRow p l a v) with
    | ok db2 => rfl
    | error e =>
      cases rf with
      | true =>
        cases ff with
        | true => rfl
        | false => cases queryInsight (c3 (c2 (c1 db))) p l <;> rfl
      | false =>
        cases queryInsight (c2 (c1 db)) p l with
        | some w => rfl
        | none =>
          cases insertInsight pdb (c2 (c1 db)) (mkInsightRow p l a v) with
          | ok db3 => rfl
          | error e =>
            cases ff with
            | true => rfl
            | false => cases queryInsight (c3 (c2 (c1 db))) p l <;> rfl

/-- Every execution of `create_or_update_insight` — any interleaving with
uniqueness-preserving concurrent commits, any failure pattern — leaves a
key-unique table key-unique. -/
theorem create_or_update_insight_presUniq {pdb : List ProjectRow}
    {p : Nat} {l : String} {a : AnalysisResult} {v : String}
    {c1 c2 c3 : InsightStore → InsightStore} {rf ff : Bool}
    (h1 : PresUniq c1) (h2 : PresUniq c2) (h3 : PresUniq c3)
    {db : InsightStore} (hu : uniqKeys db) :
    uniqKeys (create_or_update_insight pdb db p l a v c1 c2 c3 rf ff).db := by
  rw [create_or_update_insight_db]
  cases queryInsight db p l with
  | some w => exact updateInsight_uniq (h1 db hu)
  | none =>
    cases hins : insertInsight pdb (c1 db) (mkInsightRow p l a v) with
    | ok db2 => exact insertInsight_uniq hins (h1 db hu)
    | error e =>
      cases rf with
      | true => exact h3 _ (h2 _ (h1 db hu))
      | false =>
        cases queryInsight (c2 (c1 db)) p l with
        | some w => exact updateInsight_uniq (h2 _ (h1 db hu))
        | none =>
          cases hins2 : insertInsight pdb (c2 (c1 db)) (mkInsightRow p l a v) with
          | ok db3 => exact insertInsight_uniq hins2 (h2 _ (h1 db hu))
          | error e2 => exact h3 _ (h2 _ (h1 db hu))

/-- Key-uniqueness is preserved across any history of
`create_or_update_insight` calls. -/
theorem runCalls_uniq :
    ∀ (calls : List CallSpec) (db : InsightStore), uniqKeys db →
      (∀ c ∈ calls, PresUniq c.conc1 ∧ PresUniq c.conc2 ∧ PresUniq c.conc3) →
      uniqKeys (runCalls db calls) := by
  intro calls
  induction calls with
  | nil => intro db hu _; exact hu
  | cons c cs ih =>
    intro db hu hc
    have hcc := hc c (List.mem_cons_self c cs)
    exact ih _
      (create_or_update_insight_presUniq hcc.1 hcc.2.1 hcc.2.2 hu)
      (fun d hd => hc d (List.mem_cons_of_mem c hd))

/-- C1: starting from a key-unique store, after any sequence of
`create_or_update_insight` calls — with arbitrary interleavings of other
commits of this core between their transactions — at most one Insight row
exists in storage for every `(project_id, language)` pair. -/
theorem create_or_update_insight_uniqueness (calls : List CallSpec)
    (db : InsightStore) (hu : uniqKeys db)
    (hc : ∀ c ∈ calls, PresUniq c.conc1 ∧ PresUniq c.conc2 ∧ PresUniq c.conc3) :
    ∀ (p : Nat) (l : String), countKey (runCalls db calls) p l ≤ 1 :=
  countKey_le_one_of_uniq (runCalls_uniq calls db hu hc)

/-- Witness for C1: two back-to-back calls for the same `(1, "en")` pair
on an empty store leave at most one row for it. -/
theorem create_or_update_insight_uniqueness_witness :
    countKey
      (runCalls []
        [⟨[⟨1, "w", "a", "a/w", none, "u", none, none, 0, 0, none⟩], 1, "en",
            ⟨"b", "m", "s", "t", "c", "success", "en"⟩, "v", id, id, id, false, false⟩,
          ⟨[⟨1, "w", "a", "a/w", none, "u", none, none, 0, 0, none⟩], 1, "en",
            ⟨"b2", "m2", "s2", "t2", "c2", "failed", "en"⟩, "v", id, id, id, false,
            false⟩])
      1 "en" ≤ 1 :=
  create_or_update_insight_uniqueness _ [] (List.Pairwise.nil)
    (by
      intro c hc
      have hid : PresUniq id := fun _ h => h
      rcases List.mem_cons.mp hc with h | h
      · subst h; exact ⟨hid, hid, hid⟩
      · rcases List.mem_singleton.mp h with rfl
        exact ⟨hid, hid, hid⟩)
    1 "en"

/-- Looking up the updated key returns the freshly overwritten row. -/
theorem queryInsight_updateInsight (db : InsightStore) (p : Nat) (l : String)
    (a : AnalysisResult) (v : String) :
    queryInsight (updateInsight db p l a v) p l =
      (queryInsight db p l).map (applyAnalysis a v) := by
  induction db with
  | nil => rfl
  | cons r rs ih =>
    cases h : hasKey r p l with
    | true =>
      have hk : hasKey (applyAnalysis a v r) p l = true := by
        simpa [hasKey, applyAnalysis] using h
      simp [updateInsight, queryInsight, List.find?_cons, h, hk]
    | false =>
      simp only [updateInsight, queryInsight, List.map_cons, h, if_false,
        Bool.false_eq_true, List.find?_cons] at ih ⊢
      exact ih

/-- Appending a row to a store with no row at its key makes the lookup
find exactly the appended row. -/
theorem queryInsight_append_of_none {db : InsightStore} {p : Nat} {l : String}
    (h : queryInsight db p l = none) (row : InsightRow) :
    queryInsight (db ++ [row]) p l =
      if hasKey row p l then some row else none := by
  unfold queryInsight at h ⊢
  rw [List.find?_append, h]
  cases hk : hasKey row p l <;> simp [List.find?_cons, hk]

/-- A successful insert appends the row. -/
theorem insertInsight_ok_eq {pdb : List ProjectRow} {db db' : InsightStore}
    {row : InsightRow} (h : insertInsight pdb db row = .ok db') :
    db' = db ++ [row] := by
  unfold insertInsight at h
  split at h
  · cases h
  · cases h; rfl

/-- The freshly inserted row has the requested key. -/
theorem hasKey_mkInsightRow (p : Nat) (l : String) (a : AnalysisResult)
    (v : String) : hasKey (mkInsightRow p l a v) p l = true := by
  simp [hasKey, mkInsightRow]

/-- C3: when the first persistence attempt of `create_or_update_insight`
fails with a uniqueness violation (`IntegrityError`), the failure is not
propagated: the row is re-read under lock and, if present, updated with
the freshly generated content and returned successfully; if absent the
insert is retried once; `(False, None)` is reported only when every retry
path is exhausted — and the operation returns rather than raising in every
case. -/
theorem integrity_error_recovery (pdb : List ProjectRow) (db : InsightStore)
    (p : Nat) (l : String) (a : AnalysisResult) (v : String)
    (c1 c2 c3 : InsightStore → InsightStore) (rf ff : Bool)
    (hq : queryInsight db p l = none)
    (hins : insertInsight pdb (c1 db) (mkInsightRow p l a v) = .error ()) :
    (∀ w : InsightRow, rf = false → queryInsight (c2 (c1 db)) p l = some w →
        (create_or_update_insight pdb db p l a v c1 c2 c3 rf ff).success = true ∧
          (create_or_update_insight pdb db p l a v c1 c2 c3 rf ff).insight =
            some (applyAnalysis a v w)) ∧
      (∀ db3 : InsightStore, rf = false →
        queryInsight (c2 (c1 db)) p l = none →
        insertInsight pdb (c2 (c1 db)) (mkInsightRow p l a v) = .ok db3 →
        (create_or_update_insight pdb db p l a v c1 c2 c3 rf ff).success = true ∧
          (create_or_update_insight pdb db p l a v c1 c2 c3 rf ff).insight =
            some (mkInsightRow p l a v)) ∧
      ((create_or_update_insight pdb db p l a v c1 c2 c3 rf ff).success = false ↔
        ((rf = true ∨ (queryInsight (c2 (c1 db)) p l = none ∧
            insertInsight pdb (c2 (c1 db)) (mkInsightRow p l a v) = .error ())) ∧
          (ff = true ∨ queryInsight (c3 (c2 (c1 db))) p l = none))) := by
  refine ⟨?_, ?_, ?_⟩
  · intro w hrf hw
    subst hrf
    simp [create_or_update_insight, hq, hins, hw, queryInsight_updateInsight]
  · intro db3 hrf hw hins2
    subst hrf
    have hdb3 : db3 = c2 (c1 db) ++ [mkInsightRow p l a v] := insertInsight_ok_eq hins2
    subst hdb3
    simp [create_or_update_insight, hq, hins, hw, hins2,
      queryInsight_append_of_none hw, hasKey_mkInsightRow]
  · simp only [create_or_update_insight, hq, hins]
    cases rf with
    | true =>
      cases ff with
      | true => simp
      | false =>
        cases hq3 : queryInsight (c3 (c2 (c1 db))) p l with
        | some w => simp [hq3]
        | none => simp [hq3]
    | false =>
      cases hq2 : queryInsight (c2 (c1 db)) p l with
      | some w => simp [hq2]
      | none =>
        cases hins2 : insertInsight pdb (c2 (c1 db)) (mkInsightRow p l a v) with
        | ok db3 => simp [hq2, hins2]
        | error e =>
          cases e
          cases ff with
          | true => simp [hq2, hins2]
          | false =>
            cases hq3 : queryInsight (c3 (c2 (c1 db))) p l with
            | some w => simp [hq2, hins2, hq3]
            | none => simp [hq2, hins2, hq3]

/-- Witness for C3: a concurrent writer inserts the `(1, "en")` row
between the read and the commit; the conflicting insert is recovered by
re-read-and-update and the call succeeds with the fresh content. -/
theorem integrity_error_recovery_witness :
    (create_or_update_insight
        [⟨1, "w", "a", "a/w", none, "u", none, none, 0, 0, none⟩] [] 1 "en"
        ⟨"b", "m", "s", "t", "c", "success", "en"⟩ "v"
        (fun s => s ++ [(⟨1, "en", "x", "x", "x", "x", "x", "v0", "failed"⟩ : InsightRow)]) id id
        false false).success = true ∧
      (create_or_update_insight
          [⟨1, "w", "a", "a/w", none, "u", none, none, 0, 0, none⟩] [] 1 "en"
          ⟨"b", "m", "s", "t", "c", "success", "en"⟩ "v"
          (fun s => s ++ [(⟨1, "en", "x", "x", "x", "x", "x", "v0", "failed"⟩ : InsightRow)]) id id
          false false).insight =
        some (applyAnalysis ⟨"b", "m", "s", "t", "c", "success", "en"⟩ "v"
          ⟨1, "en", "x", "x", "x", "x", "x", "v0", "failed"⟩) :=
  (integrity_error_recovery
      [⟨1, "w", "a", "a/w", none, "u", none, none, 0, 0, none⟩] [] 1 "en"
      ⟨"b", "m", "s", "t", "c", "success", "en"⟩ "v"
      (fun s => s ++ [(⟨1, "en", "x", "x", "x", "x", "x", "v0", "failed"⟩ : InsightRow)]) id id
      false false rfl rfl).1
    ⟨1, "en", "x", "x", "x", "x", "x", "v0", "failed"⟩ rfl rfl

/-- C2 counterexample: with a `success` Insight already stored for
`(1, "en")`, calling `create_or_update_insight` still invokes the
generator (its call count is 1, not 0) and overwrites the stored fields —
it has no idempotent fast path. -/
theorem create_or_update_insight_no_fast_path_cex :
    (create_or_update_insight_seq
        [⟨1, "w", "a", "a/w", none, "u", none, none, 0, 0, none⟩]
        [⟨1, "en", "old", "o", "o", "o", "o", "v1", "success"⟩] 1 "en"
        ⟨"new", "n", "n", "n", "n", "success", "en"⟩ "v2").generatorCalls = 1 ∧
      (queryInsight
          (create_or_update_insight_seq
            [⟨1, "w", "a", "a/w", none, "u", none, none, 0, 0, none⟩]
            [⟨1, "en", "old", "o", "o", "o", "o", "v1", "success"⟩] 1 "en"
            ⟨"new", "n", "n", "n", "n", "success", "en"⟩ "v2").db 1 "en").map
          (fun r => r.business_value) = some "new" := by decide

/-- C2 amended: the idempotent fast path lives in the caller, not in
`create_or_update_insight`: when a `success` Insight exists for both
languages of an already-stored project, `process_project` skips the
analysis calls entirely, so no generator invocation happens and the
insight table is returned unchanged. -/
theorem success_fast_path_in_caller (pdb : List ProjectRow)
    (idb : InsightStore) (c : Candidate) (resEn resZh : AnalysisResult)
    (vEn vZh : String) (pr : ProjectRow)
    (hfind : findProject pdb c.full_name = some pr)
    (hen : (queryInsightSuccess idb pr.id "en").isSome = true)
    (hzh : (queryInsightSuccess idb pr.id "zh").isSome = true) :
    (process_project pdb idb c resEn resZh vEn vZh false).generatorCalls = 0 ∧
      (process_project pdb idb c resEn resZh vEn vZh false).idb = idb := by
  have hen' : (queryInsightSuccess idb pr.id "en").isNone = false := by
    cases h : queryInsightSuccess idb pr.id "en" <;> simp [h] at hen ⊢
  have hzh' : (queryInsightSuccess idb pr.id "zh").isNone = false := by
    cases h : queryInsightSuccess idb pr.id "zh" <;> simp [h] at hzh ⊢
  simp [process_project, hfind, check_if_insights_needed_total,
    check_if_insights_needed, List.lookup, hen', hzh']

/-- Witness for C2: with success rows for `(1, "en")` and `(1, "zh")`
stored, re-processing the same candidate performs zero generator calls
and leaves the insight table unchanged. -/
theorem success_fast_path_in_caller_witness :
    (process_project [⟨1, "w", "a", "a/w", none, "u", none, none, 0, 0, none⟩]
        [⟨1, "en", "b", "m", "s", "t", "c", "v", "success"⟩,
          ⟨1, "zh", "b", "m", "s", "t", "c", "v", "success"⟩]
        ⟨"w", "a", "a/w", none, "u", none, none, some 5, none, none⟩
        ⟨"x", "x", "x", "x", "x", "failed", "en"⟩
        ⟨"x", "x", "x", "x", "x", "failed", "zh"⟩ "v" "v"
        false).generatorCalls = 0 ∧
      (process_project [⟨1, "w", "a", "a/w", none, "u", none, none, 0, 0, none⟩]
          [⟨1, "en", "b", "m", "s", "t", "c", "v", "success"⟩,
            ⟨1, "zh", "b", "m", "s", "t", "c", "v", "success"⟩]
          ⟨"w", "a", "a/w", none, "u", none, none, some 5, none, none⟩
          ⟨"x", "x", "x", "x", "x", "failed", "en"⟩
          ⟨"x", "x", "x", "x", "x", "failed", "zh"⟩ "v" "v" false).idb =
        [⟨1, "en", "b", "m", "s", "t", "c", "v", "success"⟩,
          ⟨1, "zh", "b", "m", "s", "t", "c", "v", "success"⟩] :=
  success_fast_path_in_caller
    [⟨1, "w", "a", "a/w", none, "u", none, none, 0, 0, none⟩]
    [⟨1, "en", "b", "m", "s", "t", "c", "v", "success"⟩,
      ⟨1, "zh", "b", "m", "s", "t", "c", "v", "success"⟩]
    ⟨"w", "a", "a/w", none, "u", none, none, some 5, none, none⟩
    ⟨"x", "x", "x", "x", "x", "failed", "en"⟩
    ⟨"x", "x", "x", "x", "x", "failed", "zh"⟩ "v" "v"
    ⟨1, "w", "a", "a/w", none, "u", none, none, 0, 0, none⟩ rfl rfl rfl

/-- C5: for every project and requested language, `check_if_insights_needed`
reports the language as needing enrichment exactly when no stored Insight
with `analysis_status = "success"` exists for that (project, language)
pair; a pair whose only Insight has status `failed` is re-selected, a pair
with a `success` Insight is not. -/
theorem check_if_insights_needed_correct (db : InsightStore) (p : Nat)
    (languages : List String) (l : String) (hl : l ∈ languages) :
    ((check_if_insights_needed db p languages).lookup l = some true) ↔
      ¬ ∃ r ∈ db, r.project_id = p ∧ r.language = l ∧
        r.analysis_status = "success" := by
  unfold check_if_insights_needed
  rw [lookup_map_pair _ languages l hl]
  simp only [Option.some.injEq, Option.isNone_iff_eq_none]
  unfold queryInsightSuccess
  rw [List.find?_eq_none]
  simp [hasKey, not_and, and_assoc]

/-- Witness for C5: with a lone `failed` row stored for `(1, "en")`, the
pair is reported as needing enrichment. -/
theorem check_if_insights_needed_correct_witness :
    ((check_if_insights_needed
        [⟨1, "en", "b", "m", "s", "t", "c", "v", "failed"⟩] 1 ["en", "zh"]).lookup
          "en" = some true) ↔
      ¬ ∃ r ∈ [(⟨1, "en", "b", "m", "s", "t", "c", "v", "failed"⟩ : InsightRow)],
        r.project_id = 1 ∧ r.language = "en" ∧ r.analysis_status = "success" :=
  check_if_insights_needed_correct _ 1 ["en", "zh"] "en" (by decide)

/-- C10: when the query inside `check_if_insights_needed` fails, the
error is not propagated; every requested language is reported as needing
enrichment (fail-open). -/
theorem check_if_insights_needed_fail_open (db : InsightStore) (p : Nat)
    (languages : List String) (l : String) (hl : l ∈ languages) :
    (check_if_insights_needed_total db p languages true).lookup l = some true := by
  unfold check_if_insights_needed_total
  simp only [if_pos]
  exact lookup_map_pair (fun _ => true) languages l hl

/-- Witness for C10: a failing check on a store holding a `success` row
for `(1, "en")` still reports `"en"` as needed. -/
theorem check_if_insights_needed_fail_open_witness :
    (check_if_insights_needed_total
        [⟨1, "en", "b", "m", "s", "t", "c", "v", "success"⟩] 1 ["en", "zh"]
        true).lookup "en" = some true :=
  check_if_insights_needed_fail_open _ 1 ["en", "zh"] "en" (by decide)

/-- C6 counterexample: for the target language `"fr"` the failure fallback
of `analyze_project` carries the language code `"en"`, not the requested
code, refuting the claim that the failure payload always carries the
requested language code. -/
theorem analyze_project_fallback_language_cex :
    (analyze_project "fr" none).analysis_status = "failed" ∧
      ¬ (analyze_project "fr" none).language = "fr" := by decide

/-- C6 amended: on internal failure `analyze_project` returns a payload
with `analysis_status = "failed"`, language code `"zh"` when the target is
`"zh"` and `"en"` otherwise, and all five text fields populated with
non-empty placeholders (Chinese ones for `"zh"`, English ones
otherwise) — never an empty or partial payload, and never an exception. -/
theorem analyze_project_failure_fallback (lang : String) :
    (analyze_project lang none).analysis_status = "failed" ∧
    (analyze_project lang none).language = (if lang = "zh" then "zh" else "en") ∧
    (analyze_project lang none).business_value ≠ "" ∧
    (analyze_project lang none).market_opportunity ≠ "" ∧
    (analyze_project lang none).startup_ideas ≠ "" ∧
    (analyze_project lang none).target_audience ≠ "" ∧
    (analyze_project lang none).competition_analysis ≠ "" := by
  by_cases h : lang = "zh"
  · subst h; decide
  · simp only [analyze_project, get_default_analysis, if_neg h]
    refine ⟨?_, ?_, ?_, ?_, ?_, ?_, ?_⟩ <;> trivial

/-- C7: when a named section is missing (or empty) in the raw generator
response, parsing substitutes the language-appropriate default placeholder
for that section, and the record still gets status `"success"` because the
model call itself succeeded. -/
theorem parse_missing_section_default (lang text sect : String)
    (hs : sect ∈ analysisSections)
    (he : extract_xml (strip_code_fence text) sect = "") :
    sectionValue (analyze_project lang (some text)) sect =
        get_default_field_value lang sect ∧
      (analyze_project lang (some text)).analysis_status = "success" := by
  constructor
  · simp only [analysisSections, List.mem_cons, List.not_mem_nil, or_false] at hs
    rcases hs with h | h | h | h | h <;> subst h <;>
      simp [analyze_project, sectionValue, parse_llm_response,
        validate_analysis_result, parse_section, he,
        get_default_field_value_ne_empty]
  · rfl

/-- Witness for C7: a response lacking the `startup_ideas` section parses
to the English default placeholder for it, with status `"success"`. -/
theorem parse_missing_section_default_witness :
    ("startup_ideas" ∈ analysisSections) ∧
      (sectionValue
          (analyze_project "en" (some "<business_value>V</business_value>"))
          "startup_ideas" = get_default_field_value "en" "startup_ideas" ∧
        (analyze_project "en"
            (some "<business_value>V</business_value>")).analysis_status =
          "success") :=
  ⟨by decide,
    parse_missing_section_default "en" "<business_value>V</business_value>"
      "startup_ideas" (by decide) (by decide)⟩

/-- The update branch of the project upsert keeps the list length. -/
theorem updateProject_length (pdb : List ProjectRow) (c : Candidate) :
    (updateProject pdb c).length = pdb.length := by
  induction pdb with
  | nil => rfl
  | cons r rs ih =>
    unfold updateProject
    cases h : r.full_name == c.full_name <;> simp [h, ih]

/-- The update branch of the project upsert touches no column outside
`stars_count`, `forks_count`, `trending_date`. -/
theorem updateProject_identity (pdb : List ProjectRow) (c : Candidate) :
    ∀ (i : Nat) (h1 : i < pdb.length) (h2 : i < (updateProject pdb c).length),
      projectIdentityUnchanged (pdb.get ⟨i, h1⟩)
        ((updateProject pdb c).get ⟨i, h2⟩) := by
  induction pdb with
  | nil => intro i h1; cases h1
  | cons r rs ih =>
    intro i h1 h2
    cases hb : r.full_name == c.full_name with
    | true =>
      cases i with
      | zero =>
        have : (updateProject (r :: rs) c).get ⟨0, h2⟩ = updateProjectRow c r := by
          simp [updateProject, hb]
        rw [this]
        simp [projectIdentityUnchanged, updateProjectRow, List.get]
      | succ n =>
        have : (updateProject (r :: rs) c).get ⟨n + 1, h2⟩ =
            rs.get ⟨n, by simpa [updateProject, hb, updateProject_length] using h2⟩ := by
          simp [updateProject, hb]
        rw [this]
        simp [projectIdentityUnchanged, List.get]
    | false =>
      cases i with
      | zero =>
        have : (updateProject (r :: rs) c).get ⟨0, h2⟩ = r := by
          simp [updateProject, hb]
        rw [this]
        simp [projectIdentityUnchanged, List.get]
      | succ n =>
        have h2' : n < (updateProject rs c).length := by
          simpa [updateProject, hb] using h2
        have : (updateProject (r :: rs) c).get ⟨n + 1, h2⟩ =
            (updateProject rs c).get ⟨n, h2'⟩ := by
          simp [updateProject, hb]
        rw [this]
        exact ih n (Nat.lt_of_succ_lt_succ h1) h2'

/-- C8: upserting a candidate with an unseen `full_name` identity creates
exactly one new Project row (appended, with the candidate's fields) and
classifies the candidate as new; upserting a seen identity creates zero
rows, classifies it as not new, and modifies at most `stars_count`,
`forks_count` and `trending_date` of the stored rows. -/
theorem process_project_upsert (pdb : List ProjectRow) (idb : InsightStore)
    (c : Candidate) (rE rZ : AnalysisResult) (vE vZ : String) :
    (findProject pdb c.full_name = none →
      (process_project pdb idb c rE rZ vE vZ false).isNew = true ∧
        (process_project pdb idb c rE rZ vE vZ false).pdb =
          pdb ++ [newProjectRow pdb c]) ∧
    (∀ pr : ProjectRow, findProject pdb c.full_name = some pr →
      (process_project pdb idb c rE rZ vE vZ false).isNew = false ∧
        (process_project pdb idb c rE rZ vE vZ false).pdb = updateProject pdb c ∧
        (updateProject pdb c).length = pdb.length ∧
        ∀ (i : Nat) (h1 : i < pdb.length) (h2 : i < (updateProject pdb c).length),
          projectIdentityUnchanged (pdb.get ⟨i, h1⟩)
            ((updateProject pdb c).get ⟨i, h2⟩)) := by
  constructor
  · intro h
    simp [process_project, h]
  · intro pr h
    exact ⟨by simp [process_project, h], by simp [process_project, h],
      updateProject_length pdb c, updateProject_identity pdb c⟩

/-- Witness for C8: ingesting `{owner: "acme", name: "widget",
starsCount: 10}` twice with no prior state yields one Project row,
classified new on the first call only, with `stars_count` still 10. -/
theorem process_project_upsert_witness :
    (process_project [] []
        ⟨"widget", "acme", "acme/widget", none, "u", none, none, some 10, none, none⟩
        ⟨"b", "m", "s", "t", "c", "success", "en"⟩
        ⟨"b", "m", "s", "t", "c", "success", "zh"⟩ "v" "v" false).isNew = true ∧
    (process_project [] []
        ⟨"widget", "acme", "acme/widget", none, "u", none, none, some 10, none, none⟩
        ⟨"b", "m", "s", "t", "c", "success", "en"⟩
        ⟨"b", "m", "s", "t", "c", "success", "zh"⟩ "v" "v" false).pdb =
      [] ++ [newProjectRow []
        ⟨"widget", "acme", "acme/widget", none, "u", none, none, some 10, none, none⟩] ∧
    (process_project
        (process_project [] []
          ⟨"widget", "acme", "acme/widget", none, "u", none, none, some 10, none, none⟩
          ⟨"b", "m", "s", "t", "c", "success", "en"⟩
          ⟨"b", "m", "s", "t", "c", "success", "zh"⟩ "v" "v" false).pdb
        (process_project [] []
          ⟨"widget", "acme", "acme/widget", none, "u", none, none, some 10, none, none⟩
          ⟨"b", "m", "s", "t", "c", "success", "en"⟩
          ⟨"b", "m", "s", "t", "c", "success", "zh"⟩ "v" "v" false).idb
        ⟨"widget", "acme", "acme/widget", none, "u", none, none, some 10, none, none⟩
        ⟨"b", "m", "s", "t", "c", "success", "en"⟩
        ⟨"b", "m", "s", "t", "c", "success", "zh"⟩ "v" "v" false).isNew = false ∧
    ((process_project
        (process_project [] []
          ⟨"widget", "acme", "acme/widget", none, "u", none, none, some 10, none, none⟩
          ⟨"b", "m", "s", "t", "c", "success", "en"⟩
          ⟨"b", "m", "s", "t", "c", "success", "zh"⟩ "v" "v" false).pdb
        (process_project [] []
          ⟨"widget", "acme", "acme/widget", none, "u", none, none, some 10, none, none⟩
          ⟨"b", "m", "s", "t", "c", "success", "en"⟩
          ⟨"b", "m", "s", "t", "c", "success", "zh"⟩ "v" "v" false).idb
        ⟨"widget", "acme", "acme/widget", none, "u", none, none, some 10, none, none⟩
        ⟨"b", "m", "s", "t", "c", "success", "en"⟩
        ⟨"b", "m", "s", "t", "c", "success", "zh"⟩ "v" "v" false).pdb).map
      (fun r => r.stars_count) = [10] :=
  ⟨((process_project_upsert [] []
        ⟨"widget", "acme", "acme/widget", none, "u", none, none, some 10, none, none⟩
        ⟨"b", "m", "s", "t", "c", "success", "en"⟩
        ⟨"b", "m", "s", "t", "c", "success", "zh"⟩ "v" "v").1 (by decide)).1,
    ((process_project_upsert [] []
        ⟨"widget", "acme", "acme/widget", none, "u", none, none, some 10, none, none⟩
        ⟨"b", "m", "s", "t", "c", "success", "en"⟩
        ⟨"b", "m", "s", "t", "c", "success", "zh"⟩ "v" "v").1 (by decide)).2,
    ((process_project_upsert
        (process_project [] []
          ⟨"widget", "acme", "acme/widget", none, "u", none, none, some 10, none, none⟩
          ⟨"b", "m", "s", "t", "c", "success", "en"⟩
          ⟨"b", "m", "s", "t", "c", "success", "zh"⟩ "v" "v" false).pdb
        (process_project [] []
          ⟨"widget", "acme", "acme/widget", none, "u", none, none, some 10, none, none⟩
          ⟨"b", "m", "s", "t", "c", "success", "en"⟩
          ⟨"b", "m", "s", "t", "c", "success", "zh"⟩ "v" "v" false).idb
        ⟨"widget", "acme", "acme/widget", none, "u", none, none, some 10, none, none⟩
        ⟨"b", "m", "s", "t", "c", "success", "en"⟩
        ⟨"b", "m", "s", "t", "c", "success", "zh"⟩ "v" "v").2
      ⟨1, "widget", "acme", "acme/widget", none, "u", none, none, 10, 0, none⟩
      (by decide)).1,
    by decide⟩

/-- A success row at a key is exactly a non-`none` success-filtered
lookup. -/
theorem successAt_iff_querySuccess {db : InsightStore} {q : Nat} {m : String} :
    SuccessAt db q m ↔ queryInsightSuccess db q m ≠ none := by
  unfold SuccessAt queryInsightSuccess
  constructor
  · rintro ⟨r, hr, hk, hst⟩ hnone
    rw [List.find?_eq_none] at hnone
    exact hnone r hr (by simp [hk, hst])
  · intro h
    cases hq : db.find? (fun r => hasKey r q m && r.analysis_status == "success") with
    | none => exact absurd hq h
    | some r =>
      have hmem := List.mem_of_find?_eq_some hq
      have hpred := List.find?_some hq
      rw [Bool.and_eq_true, beq_iff_eq] at hpred
      exact ⟨r, hmem, hpred.1, hpred.2⟩

/-- A success row at a key also makes the plain lookup non-`none`. -/
theorem queryInsight_ne_none_of_successAt {db : InsightStore} {q : Nat}
    {m : String} (h : SuccessAt db q m) : queryInsight db q m ≠ none := by
  rcases h with ⟨r, hr, hk, _⟩
  intro hq
  rw [queryInsight, List.find?_eq_none] at hq
  exact hq r hr hk

/-- Updating the row at a different key leaves a row untouched and in
place. -/
theorem mem_updateInsight_of_key_ne {db : InsightStore} {p : Nat} {l : String}
    {a : AnalysisResult} {v : String} {r : InsightRow} {q : Nat} {m : String}
    (hr : r ∈ db) (hk : hasKey r q m = true) (hne : ¬(p = q ∧ l = m)) :
    r ∈ updateInsight db p l a v := by
  rw [hasKey, Bool.and_eq_true, beq_iff_eq, beq_iff_eq] at hk
  have hf : hasKey r p l = false := by
    rw [hasKey, hk.1, hk.2]
    by_cases h1 : q = p
    · subst h1
      have h2 : m ≠ l := fun h => hne ⟨rfl, h.symm⟩
      simp [h2]
    · simp only [Bool.and_eq_false_iff, beq_eq_false_iff_ne, ne_eq]
      left
      exact h1
  exact List.mem_map.mpr ⟨r, hr, by simp [hf]⟩

/-- Under key-uniqueness, two stored rows with the same key coincide. -/
theorem eq_of_mem_key_uniq {db : InsightStore} {q : Nat} {m : String}
    {r1 r2 : InsightRow} (hu : uniqKeys db) (h1 : r1 ∈ db)
    (hk1 : hasKey r1 q m = true) (h2 : r2 ∈ db) (hk2 : hasKey r2 q m = true) :
    r1 = r2 := by
  have hc := countKey_le_one_of_uniq hu q m
  unfold countKey at hc
  have m1 : r1 ∈ db.filter (fun r => hasKey r q m) := List.mem_filter.mpr ⟨h1, hk1⟩
  have m2 : r2 ∈ db.filter (fun r => hasKey r q m) := List.mem_filter.mpr ⟨h2, hk2⟩
  cases hfil : db.filter (fun r => hasKey r q m) with
  | nil => rw [hfil] at m1; cases m1
  | cons x xs =>
    rw [hfil] at hc m1 m2
    have hxs : xs = [] := by
      cases xs with
      | nil => rfl
      | cons y ys => simp at hc
    subst hxs
    rw [List.mem_singleton.mp m1, List.mem_singleton.mp m2]

/-- Sequential `create_or_update_insight` preserves key-uniqueness. -/
theorem seq_uniq {pdb : List ProjectRow} {db : InsightStore} {p : Nat}
    {l : String} {a : AnalysisResult} {v : String} (hu : uniqKeys db) :
    uniqKeys (create_or_update_insight_seq pdb db p l a v).db :=
  create_or_update_insight_presUniq (fun _ h => h) (fun _ h => h)
    (fun _ h => h) hu

/-- Sequential `create_or_update_insight` preserves the foreign-key
invariant: inserts are rejected unless the project exists, and updates
keep `project_id`. -/
theorem seq_fk {pdb : List ProjectRow} {db : InsightStore} {p : Nat}
    {l : String} {a : AnalysisResult} {v : String} (hf : FKInv pdb db) :
    FKInv pdb (create_or_update_insight_seq pdb db p l a v).db := by
  unfold create_or_update_insight_seq
  rw [create_or_update_insight_db]
  simp only [id]
  cases hq : queryInsight db p l with
  | some w =>
    show FKInv pdb (updateInsight db p l a v)
    intro r hr
    rcases List.mem_map.mp hr with ⟨x, hx, hxr⟩
    have hid : r.project_id = x.project_id := by
      rw [← hxr]
      by_cases hk : hasKey x p l = true <;> simp [hk, applyAnalysis]
    rw [hid]
    exact hf x hx
  | none =>
    cases hins : insertInsight pdb db (mkInsightRow p l a v) with
    | ok db2 =>
      have h2 := insertInsight_ok_eq hins
      subst h2
      show FKInv pdb (db ++ [mkInsightRow p l a v])
      intro r hr
      rcases List.mem_append.mp hr with h | h
      · exact hf r h
      · rcases List.mem_singleton.mp h with rfl
        unfold insertInsight at hins
        split at hins
        · cases hins
        · next hc =>
          cases hb : pdb.any (fun pr => pr.id == (mkInsightRow p l a v).project_id) with
          | true => rfl
          | false => exact absurd (by simp [hb]) hc
    | error e =>
      cases e
      simp only [hq, hins]
      exact hf

/-- Sequential `create_or_update_insight` for a different key keeps a
stored success row stored. -/
theorem successAt_seq_of_ne {pdb : List ProjectRow} {db : InsightStore}
    {p : Nat} {l : String} {a : AnalysisResult} {v : String} {q : Nat}
    {m : String} (hs : SuccessAt db q m) (hne : ¬(p = q ∧ l = m)) :
    SuccessAt (create_or_update_insight_seq pdb db p l a v).db q m := by
  rcases hs with ⟨r, hr, hk, hst⟩
  unfold create_or_update_insight_seq
  rw [create_or_update_insight_db]
  simp only [id]
  cases hq : queryInsight db p l with
  | some w => exact ⟨r, mem_updateInsight_of_key_ne hr hk hne, hk, hst⟩
  | none =>
    cases hins : insertInsight pdb db (mkInsightRow p l a v) with
    | ok db2 =>
      have h2 := insertInsight_ok_eq hins
      subst h2
      exact ⟨r, List.mem_append_left _ hr, hk, hst⟩
    | error e =>
      cases e
      simp only [hq, hins]
      exact ⟨r, hr, hk, hst⟩

/-- Any id present in the project table stays present after the update
branch of the upsert. -/
theorem updateProject_ids (pdb : List ProjectRow) (c : Candidate) (n : Nat) :
    (updateProject pdb c).any (fun pr => pr.id == n) =
      pdb.any (fun pr => pr.id == n) := by
  induction pdb with
  | nil => rfl
  | cons r rs ih =>
    unfold updateProject
    cases hb : r.full_name == c.full_name <;>
      simp [List.any_cons, updateProjectRow, ih]

/-- Ids only grow more reachable: a superset of witnesses keeps `any`
true. -/
theorem fkInv_mono {pdb pdb' : List ProjectRow} {idb : InsightStore}
    (hids : ∀ n, pdb.any (fun pr => pr.id == n) = true →
      pdb'.any (fun pr => pr.id == n) = true)
    (hf : FKInv pdb idb) : FKInv pdb' idb :=
  fun r hr => hids _ (hf r hr)

/-- Every stored project id is strictly below the next fresh id. -/
theorem id_lt_newProjectId {pdb : List ProjectRow} {pr : ProjectRow}
    (h : pr ∈ pdb) : pr.id < newProjectId pdb := by
  unfold newProjectId
  induction pdb with
  | nil => cases h
  | cons r rs ih =>
    rcases List.mem_cons.mp h with rfl | h
    · have := Nat.le_max_left pr.id (rs.foldr (fun r m => max r.id m) 0)
      simp only [List.foldr_cons]
      omega
    · have h1 := ih h
      have h2 := Nat.le_max_right r.id (rs.foldr (fun r m => max r.id m) 0)
      simp only [List.foldr_cons]
      omega

/-- Insight rows never reference the id a fresh project insert will
receive. -/
theorem project_id_ne_new {pdb : List ProjectRow} {idb : InsightStore}
    {r : InsightRow} (hf : FKInv pdb idb) (hr : r ∈ idb) :
    r.project_id ≠ newProjectId pdb := by
  intro h
  have hfk := hf r hr
  rw [List.any_eq_true] at hfk
  rcases hfk with ⟨pr, hpr, hid⟩
  rw [beq_iff_eq] at hid
  have := id_lt_newProjectId hpr
  omega

/-- The two need flags computed by `process_project` from a non-failing
check are the absence of a success row per language. -/
theorem needs_lookup_en_zh (idb : InsightStore) (pid : Nat) :
    (((check_if_insights_needed_total idb pid ["en", "zh"] false).lookup
        "en").getD false = (queryInsightSuccess idb pid "en").isNone) ∧
      (((check_if_insights_needed_total idb pid ["en", "zh"] false).lookup
        "zh").getD false = (queryInsightSuccess idb pid "zh").isNone) := by
  simp [check_if_insights_needed_total, check_if_insights_needed, List.lookup]

/-- One core operation that does not hit the check's fail-open branch
preserves the foreign-key invariant, key-uniqueness, and every stored
success row. -/
theorem applyCoreOp_preserves (q : Nat) (m : String) (op : CoreOp)
    (hop : opNoCheckFail op) (s : List ProjectRow × InsightStore)
    (hf : FKInv s.1 s.2) (hu : uniqKeys s.2) (hs : SuccessAt s.2 q m) :
    FKInv (applyCoreOp s op).1 (applyCoreOp s op).2 ∧
      uniqKeys (applyCoreOp s op).2 ∧ SuccessAt (applyCoreOp s op).2 q m := by
  obtain ⟨pdb, idb⟩ := s
  cases op with
  | checkNeeded p languages queryFails => exact ⟨hf, hu, hs⟩
  | analyzeSingle p lang res v =>
    show FKInv pdb (analyze_single_project pdb idb p lang res v) ∧
      uniqKeys (analyze_single_project pdb idb p lang res v) ∧
      SuccessAt (analyze_single_project pdb idb p lang res v) q m
    unfold analyze_single_project
    cases hq : queryInsightSuccess idb p lang with
    | some w => exact ⟨hf, hu, hs⟩
    | none =>
      have hne : ¬(p = q ∧ lang = m) := by
        rintro ⟨rfl, rfl⟩
        exact successAt_iff_querySuccess.mp hs hq
      exact ⟨seq_fk hf, seq_uniq hu, successAt_seq_of_ne hs hne⟩
  | onDemand owner repo lang res v =>
    show FKInv pdb (get_project_insights_by_name pdb idb owner repo lang res v) ∧
      uniqKeys (get_project_insights_by_name pdb idb owner repo lang res v) ∧
      SuccessAt (get_project_insights_by_name pdb idb owner repo lang res v) q m
    unfold get_project_insights_by_name
    cases hfind : findProject pdb (owner ++ "/" ++ repo) with
    | none => exact ⟨hf, hu, hs⟩
    | some pr =>
      dsimp only
      cases hq : queryInsight idb pr.id lang with
      | none =>
        have hne : ¬(pr.id = q ∧ lang = m) := by
          rintro ⟨rfl, rfl⟩
          exact queryInsight_ne_none_of_successAt hs hq
        exact ⟨seq_fk hf, seq_uniq hu, successAt_seq_of_ne hs hne⟩
      | some ins =>
        dsimp only
        cases hsucc : ins.analysis_status == "success" with
        | true => exact ⟨hf, hu, hs⟩
        | false =>
          cases hfail : ins.analysis_status == "failed" with
          | false => exact ⟨hf, hu, hs⟩
          | true =>
            have hne : ¬(pr.id = q ∧ lang = m) := by
              rintro ⟨rfl, rfl⟩
              rcases hs with ⟨rs, hrs, hks, hss⟩
              have hmem := List.mem_of_find?_eq_some hq
              have hkey := List.find?_some hq
              have : ins = rs := eq_of_mem_key_uniq hu hmem hkey hrs hks
              rw [this, hss] at hsucc
              simp at hsucc
            exact ⟨seq_fk hf, seq_uniq hu, successAt_seq_of_ne hs hne⟩
  | processProject c resEn resZh vEn vZh checkFails =>
    have hcf : checkFails = false := hop
    subst hcf
    show FKInv (process_project pdb idb c resEn resZh vEn vZh false).pdb
        (process_project pdb idb c resEn resZh vEn vZh false).idb ∧
      uniqKeys (process_project pdb idb c resEn resZh vEn vZh false).idb ∧
      SuccessAt (process_project pdb idb c resEn resZh vEn vZh false).idb q m
    unfold process_project
    cases hfind : findProject pdb c.full_name with
    | none =>
      dsimp only
      have hfresh : q ≠ newProjectId pdb := by
        rcases hs with ⟨r, hr, hk, _⟩
        rw [hasKey, Bool.and_eq_true, beq_iff_eq, beq_iff_eq] at hk
        rw [← hk.1]
        exact project_id_ne_new hf hr
      have hid : (newProjectRow pdb c).id = newProjectId pdb := rfl
      have hne1 : ¬((newProjectRow pdb c).id = q ∧ "en" = m) := by
        rintro ⟨h1, _⟩
        exact hfresh (hid ▸ h1.symm)
      have hne2 : ¬((newProjectRow pdb c).id = q ∧ "zh" = m) := by
        rintro ⟨h1, _⟩
        exact hfresh (hid ▸ h1.symm)
      have hf1 : FKInv (pdb ++ [newProjectRow pdb c]) idb :=
        fkInv_mono (fun n h => by rw [List.any_append]; simp [h]) hf
      exact ⟨seq_fk (seq_fk hf1), seq_uniq (seq_uniq hu),
        successAt_seq_of_ne (successAt_seq_of_ne hs hne1) hne2⟩
    | some pr =>
      dsimp only
      rw [(needs_lookup_en_zh idb pr.id).1, (needs_lookup_en_zh idb pr.id).2]
      have hf1 : FKInv (updateProject pdb c) idb :=
        fkInv_mono (fun n h => by rw [updateProject_ids]; exact h) hf
      have hEn : ∀ hq : queryInsightSuccess idb pr.id "en" = none,
          ¬(pr.id = q ∧ "en" = m) := by
        intro hq
        rintro ⟨rfl, rfl⟩
        exact successAt_iff_querySuccess.mp hs hq
      have hZh : ∀ hq : queryInsightSuccess idb pr.id "zh" = none,
          ¬(pr.id = q ∧ "zh" = m) := by
        intro hq
        rintro ⟨rfl, rfl⟩
        exact successAt_iff_querySuccess.mp hs hq
      cases hen : (queryInsightSuccess idb pr.id "en").isNone with
      | true =>
        have hqen := Option.isNone_iff_eq_none.mp hen
        cases hzh : (queryInsightSuccess idb pr.id "zh").isNone with
        | true =>
          have hqzh := Option.isNone_iff_eq_none.mp hzh
          simp only [if_true]
          exact ⟨seq_fk (seq_fk hf1), seq_uniq (seq_uniq hu),
            successAt_seq_of_ne (successAt_seq_of_ne hs (hEn hqen)) (hZh hqzh)⟩
        | false =>
          simp only [Bool.false_eq_true, if_false, if_true]
          exact ⟨seq_fk hf1, seq_uniq hu, successAt_seq_of_ne hs (hEn hqen)⟩
      | false =>
        cases hzh : (queryInsightSuccess idb pr.id "zh").isNone with
        | true =>
          have hqzh := Option.isNone_iff_eq_none.mp hzh
          simp only [Bool.false_eq_true, if_false, if_true]
          exact ⟨seq_fk hf1, seq_uniq hu, successAt_seq_of_ne hs (hZh hqzh)⟩
        | false =>
          simp only [Bool.false_eq_true, if_false]
          exact ⟨hf1, hu, hs⟩

/-- C4 counterexample: a stored `success` row for `(1, "en")` is
overwritten with `analysis_status = "failed"` by a single core operation:
a `process_project` run in which the needed-check query fails (its
fail-open branch marks both languages as needed) and the generation then
fails.  The claim's "no operation of this core ever sets success back to
failed" is therefore false as stated. -/
theorem success_overwritten_on_check_failure_cex :
    ((⟨1, "en", "b", "m", "s", "t", "c", "v", "success"⟩ : InsightRow).analysis_status
        = "success") ∧
      (queryInsight
          (runCoreOps
            [CoreOp.processProject
              ⟨"w", "a", "a/w", none, "u", none, none, some 5, none, none⟩
              ⟨"x", "x", "x", "x", "x", "failed", "en"⟩
              ⟨"x", "x", "x", "x", "x", "failed", "zh"⟩ "v2" "v2" true]
            ([⟨1, "w", "a", "a/w", none, "u", none, none, 0, 0, none⟩],
              [⟨1, "en", "b", "m", "s", "t", "c", "v", "success"⟩])).2
          1 "en").map (fun r => r.analysis_status) = some "failed" := by decide

/-- C4 amended: across sequential histories of the core's operations
(pipeline `process_project` runs, batch `analyze_single_project` calls,
on-demand reads, need checks), a `(project, language)` pair can move from
absent to `failed` or `success` and from `failed` to anything the
generator produces, but once a stored Insight has
`analysis_status = "success"` no operation sets it back to `"failed"` —
provided the needed-check query of `process_project` does not itself fail,
since its fail-open branch re-analyzes the pair and a failing generation
then overwrites the `success` row. -/
theorem success_status_terminal (ops : List CoreOp) (pdb : List ProjectRow)
    (idb : InsightStore) (hf : FKInv pdb idb) (hu : uniqKeys idb)
    (hops : ∀ op ∈ ops, opNoCheckFail op) (q : Nat) (m : String)
    (hs : SuccessAt idb q m) :
    ∀ r2 ∈ (runCoreOps ops (pdb, idb)).2, hasKey r2 q m = true →
      r2.analysis_status = "success" := by
  have main : ∀ (ops2 : List CoreOp) (s : List ProjectRow × InsightStore),
      FKInv s.1 s.2 → uniqKeys s.2 → SuccessAt s.2 q m →
      (∀ op ∈ ops2, opNoCheckFail op) →
      FKInv (runCoreOps ops2 s).1 (runCoreOps ops2 s).2 ∧
        uniqKeys (runCoreOps ops2 s).2 ∧ SuccessAt (runCoreOps ops2 s).2 q m := by
    intro ops2
    induction ops2 with
    | nil => intro s h1 h2 h3 _; exact ⟨h1, h2, h3⟩
    | cons op rest ih =>
      intro s h1 h2 h3 hops2
      have hstep := applyCoreOp_preserves q m op
        (hops2 op (List.mem_cons_self op rest)) s h1 h2 h3
      exact ih (applyCoreOp s op) hstep.1 hstep.2.1 hstep.2.2
        (fun o ho => hops2 o (List.mem_cons_of_mem op ho))
  rcases main ops (pdb, idb) hf hu hs hops with ⟨_, hu2, hs2⟩
  intro r2 hr2 hk2
  rcases hs2 with ⟨rs, hrs, hks, hss⟩
  rw [eq_of_mem_key_uniq hu2 hr2 hk2 hrs hks]
  exact hss

/-- Witness for C4: one fail-free `process_project` run over a store
holding a `success` row for `(1, "en")`; the theorem applies and the row
keeps status `"success"`. -/
theorem success_status_terminal_witness :
    (⟨1, "en", "b", "m", "s", "t", "c", "v", "success"⟩ : InsightRow).analysis_status
      = "success" :=
  success_status_terminal
    [CoreOp.processProject
      ⟨"w", "a", "a/w", none, "u", none, none, some 5, none, none⟩
      ⟨"x", "x", "x", "x", "x", "failed", "en"⟩
      ⟨"x", "x", "x", "x", "x", "failed", "zh"⟩ "v2" "v2" false]
    [⟨1, "w", "a", "a/w", none, "u", none, none, 0, 0, none⟩]
    [⟨1, "en", "b", "m", "s", "t", "c", "v", "success"⟩]
    (by
      intro r hr
      rcases List.mem_singleton.mp hr with rfl
      decide)
    (List.pairwise_singleton _ _)
    (by
      intro op hop
      rcases List.mem_singleton.mp hop with rfl
      exact rfl)
    1 "en"
    ⟨⟨1, "en", "b", "m", "s", "t", "c", "v", "success"⟩,
      List.mem_singleton.mpr rfl, by decide, rfl⟩
    ⟨1, "en", "b", "m", "s", "t", "c", "v", "success"⟩ (by decide) (by decide)

/-- C9 (code bug): one run over a single language with one previously
unseen candidate creates a Project row and completes without error, yet
the returned statistics still report `new_projects = 0` and
`updated_projects = 0`.  `process_project` computes its per-call
`{"new_projects": 1, "updated_projects": 0}` dictionary locally and
discards it (it returns only a Boolean), and `_scrape_github_trending_async`
never increments those two counters; the remaining counters do
accumulate. -/
theorem scrape_stats_new_projects_never_counted :
    (scrape_github_trending_async
        (fun lg => if lg == "python" then
            Except.ok [⟨"widget", "acme", "acme/widget", none, "u", none, none,
              some 10, none, none⟩]
          else Except.ok ([] : List Candidate))
        (fun _ _ => ⟨"b", "m", "s", "t", "c", "success", "en"⟩) "v"
        (some ["python"]) [] []).stats.new_projects = 0 ∧
    (scrape_github_trending_async
        (fun lg => if lg == "python" then
            Except.ok [⟨"widget", "acme", "acme/widget", none, "u", none, none,
              some 10, none, none⟩]
          else Except.ok ([] : List Candidate))
        (fun _ _ => ⟨"b", "m", "s", "t", "c", "success", "en"⟩) "v"
        (some ["python"]) [] []).stats.updated_projects = 0 ∧
    (scrape_github_trending_async
        (fun lg => if lg == "python" then
            Except.ok [⟨"widget", "acme", "acme/widget", none, "u", none, none,
              some 10, none, none⟩]
          else Except.ok ([] : List Candidate))
        (fun _ _ => ⟨"b", "m", "s", "t", "c", "success", "en"⟩) "v"
        (some ["python"]) [] []).stats.total_scraped = 1 ∧
    (scrape_github_trending_async
        (fun lg => if lg == "python" then
            Except.ok [⟨"widget", "acme", "acme/widget", none, "u", none, none,
              some 10, none, none⟩]
          else Except.ok ([] : List Candidate))
        (fun _ _ => ⟨"b", "m", "s", "t", "c", "success", "en"⟩) "v"
        (some ["python"]) [] []).stats.total_analyzed = 1 ∧
    (scrape_github_trending_async
        (fun lg => if lg == "python" then
            Except.ok [⟨"widget", "acme", "acme/widget", none, "u", none, none,
              some 10, none, none⟩]
          else Except.ok ([] : List Candidate))
        (fun _ _ => ⟨"b", "m", "s", "t", "c", "success", "en"⟩) "v"
        (some ["python"]) [] []).pdb.length = 1 ∧
    (scrape_github_trending_async
        (fun lg => if lg == "python" then
            Except.ok [⟨"widget", "acme", "acme/widget", none, "u", none, none,
              some 10, none, none⟩]
          else Except.ok ([] : List Candidate))
        (fun _ _ => ⟨"b", "m", "s", "t", "c", "success", "en"⟩) "v"
        (some ["python"]) [] []).error = none := by decide
